import Mathlib

/-!
Verification of the wedding-budget-site front-end logic (`js/index.js`,
`js/item.js`) against its natural-language specification.

The JavaScript is shallowly embedded: JS numbers are modelled as exact
rationals (`ℚ`), JS strings as `String`, nullable values as `Option`,
and the stateful pipeline (canonical array, filtered view, inline-edit
auto-save) as pure functions on explicit state.  `Array.prototype.sort`
is stable in the JS engines the site targets, so the in-place sort is
modelled as a stable insertion sort with the source's comparator.
String builtins (`toLowerCase`, `trim`, `includes`, `startsWith`) are
modelled as structurally recursive functions on the character list so
that every definition evaluates inside the kernel.  Network access (the
database client) is modelled by passing the awaited call result as an
argument and recording the issued requests in an effect list.
-/

/-- Emptiness test on a JS string, on the character list. -/
def strIsEmpty (s : String) : Bool :=
  s.data.isEmpty

/-- The builtin `String.prototype.toLowerCase`, modelled characterwise. -/
def jsToLower (s : String) : String :=
  ⟨s.data.map Char.toLower⟩

/-- The builtin `String.prototype.trim`: strip whitespace from both ends. -/
def jsTrim (s : String) : String :=
  ⟨((s.data.dropWhile Char.isWhitespace).reverse.dropWhile Char.isWhitespace).reverse⟩

/-- The builtin `String.prototype.includes`: substring containment. -/
def jsIncludes (s needle : String) : Bool :=
  decide (needle.data <:+: s.data)

/-- The builtin `String.prototype.startsWith`, as a character-list
prefix test. -/
def jsStartsWith (s p : String) : Bool :=
  p.data.isPrefixOf s.data

/-- Identifier of a budget item: persisted rows carry an integer id from
the database, an unsaved sentinel row carries a temporary string id. -/
inductive ItemId where
  | num (n : Int)
  | str (s : String)
deriving DecidableEq, Repr

/-- Dynamic JavaScript value as it appears in item fields and sort keys:
a number, a string, or null/undefined. -/
inductive JsVal where
  | num (q : ℚ)
  | str (s : String)
  | null
deriving DecidableEq, Repr

/-- App-format budget item, the result of `transformItem` in
`js/index.js`: camelCase fields, nullable values as `Option`. -/
structure Item where
  id : ItemId
  category : Option String
  item : Option String
  required : Option String
  notes : Option String
  unitCost : Option ℚ
  quantity : Option ℚ
  subTotal : Option ℚ
  mdContent : Option String
deriving DecidableEq, Repr

/-- Truthiness of a JS string-or-null value: `null`, `undefined` and the
empty string are falsy. -/
def strTruthy : Option String → Bool
  | none => false
  | some s => !strIsEmpty s

/-- Sentinel test from `js/index.js`:
`typeof item.id === 'string' && item.id.startsWith('new-item-temp-')`. -/
def isNewId : ItemId → Bool
  | ItemId.num _ => false
  | ItemId.str s => jsStartsWith s "new-item-temp-"

/-- Embedding of `calculateSubTotal` (`js/index.js` lines 224-231): a
numeric stored `subTotal` is returned verbatim; otherwise
`unitCost` (or 0) times `quantity` (or 1). -/
def calculateSubTotal (it : Item) : ℚ :=
  match it.subTotal with
  | some s => s
  | none =>
      let cost := match it.unitCost with | some c => c | none => 0
      let qty := match it.quantity with | some q => q | none => 1
      cost * qty

/-- State of the three filter controls: the raw search input value, the
category select value and the required-only checkbox. -/
structure FilterState where
  searchTerm : String
  category : String
  requiredOnly : Bool
deriving DecidableEq, Repr

/-- Embedding of `applyFilters` (`js/index.js` lines 610-622): filter the
canonical collection by the conjunction of the search, category and
required predicates, written exactly as in the source (truthiness
guards included). -/
def applyFilters (fs : FilterState) (data : List Item) : List Item :=
  let searchTerm := jsToLower (jsTrim fs.searchTerm)
  data.filter (fun it =>
    let matchesSearch := strIsEmpty searchTerm ||
      (match it.item with
        | some s => !strIsEmpty s && jsIncludes (jsToLower s) searchTerm
        | none => false) ||
      (match it.category with
        | some s => !strIsEmpty s && jsIncludes (jsToLower s) searchTerm
        | none => false)
    let matchesCategory := strIsEmpty fs.category ||
      (match it.category with
        | some c => c == fs.category
        | none => false)
    let matchesRequired := !fs.requiredOnly ||
      (match it.required with
        | some r => !strIsEmpty r && jsStartsWith (jsToLower r) "y"
        | none => false)
    matchesSearch && matchesCategory && matchesRequired)

/-- Search predicate as the spec words it: the (trimmed) search term is
empty, or is a case-insensitive substring of the item field or of the
category field. -/
def specSearchMatch (fs : FilterState) (it : Item) : Bool :=
  let t := jsToLower (jsTrim fs.searchTerm)
  strIsEmpty t ||
    (match it.item with | some s => jsIncludes (jsToLower s) t | none => false) ||
    (match it.category with | some s => jsIncludes (jsToLower s) t | none => false)

/-- Category predicate as the spec words it: the category filter is empty
or exactly equals the item's category. -/
def specCategoryMatch (fs : FilterState) (it : Item) : Bool :=
  strIsEmpty fs.category || (it.category == some fs.category)

/-- Required predicate as the spec words it: the checkbox is unset or the
item's required field case-insensitively starts with "y". -/
def specRequiredMatch (fs : FilterState) (it : Item) : Bool :=
  !fs.requiredOnly ||
    (match it.required with
      | some r => jsStartsWith (jsToLower r) "y"
      | none => false)

/-- Embedding of the total-cost computation of `updateSummary`
(`js/index.js` lines 762-776): fold `calculateSubTotal` over the current
derived view (the sentinel row, if in view, is not excluded). -/
def summaryTotalCost (fs : FilterState) (data : List Item) : ℚ :=
  (applyFilters fs data).foldl (fun sum it => sum + calculateSubTotal it) 0

/-- Per-item cost exactly as claim C1 words it:
`unitCost × (quantity ?? 1)` with a non-numeric unit cost treated as 0. -/
def claimItemCost (it : Item) : ℚ :=
  (match it.unitCost with | some c => c | none => 0) *
    (match it.quantity with | some q => q | none => 1)

/-- Total cost as claim C1 words it: the sum of `claimItemCost` over
exactly the items in the derived view. -/
def claimTotalCost (fs : FilterState) (data : List Item) : ℚ :=
  ((applyFilters fs data).map claimItemCost).sum

/-- Per-item cost as the amended claim words it: the stored `subTotal`
when it is a number, otherwise `unitCost × (quantity ?? 1)`. -/
def amendedItemCost (it : Item) : ℚ :=
  match it.subTotal with
  | some s => s
  | none => claimItemCost it

/-- Lexicographic code-unit comparison of character lists, modelling the
JavaScript `<` operator on strings. -/
def charListLt : List Char → List Char → Bool
  | [], [] => false
  | [], _ :: _ => true
  | _ :: _, [] => false
  | a :: as, b :: bs => if a < b then true else if b < a then false else charListLt as bs

/-- JS string less-than on the underlying character lists. -/
def jsStrLt (a b : String) : Bool :=
  charListLt a.data b.data

/-- Decimal rendering of an integer-valued rational; non-integral values
are rendered as a fraction.  Models the builtin JS number-to-string
conversion (exact on the integer values the site produces). -/
def ratToString (q : ℚ) : String :=
  if q.den = 1 then toString q.num
  else toString q.num ++ "/" ++ toString q.den

/-- String coercion of a JS value as used by the sort comparator:
`String(v)` after null/undefined have been coerced to the empty string. -/
def jsValAsString : JsVal → String
  | JsVal.null => ""
  | JsVal.str s => s
  | JsVal.num q => ratToString q

/-- Column keys carried by the sortable table headers (`th[data-sort]`);
`a[key]` is the raw property access in `sortData`. -/
inductive SortKey where
  | id
  | category
  | item
  | required
  | notes
  | unitCost
  | quantity
  | subTotal
  | mdContent
deriving DecidableEq, Repr

/-- Raw JS property access `a[key]` on an item. -/
def getSortVal (key : SortKey) (it : Item) : JsVal :=
  match key with
  | SortKey.id => match it.id with | ItemId.num n => JsVal.num (n : ℚ) | ItemId.str s => JsVal.str s
  | SortKey.category => match it.category with | some s => JsVal.str s | none => JsVal.null
  | SortKey.item => match it.item with | some s => JsVal.str s | none => JsVal.null
  | SortKey.required => match it.required with | some s => JsVal.str s | none => JsVal.null
  | SortKey.notes => match it.notes with | some s => JsVal.str s | none => JsVal.null
  | SortKey.unitCost => match it.unitCost with | some q => JsVal.num q | none => JsVal.null
  | SortKey.quantity => match it.quantity with | some q => JsVal.num q | none => JsVal.null
  | SortKey.subTotal => match it.subTotal with | some q => JsVal.num q | none => JsVal.null
  | SortKey.mdContent => match it.mdContent with | some s => JsVal.str s | none => JsVal.null

/-- Sort value of an item for a column, per `sortData` (`js/index.js`
lines 627-652): the raw property, except that the subtotal column is
overridden with `calculateSubTotal`. -/
def sortVal (key : SortKey) (it : Item) : JsVal :=
  match key with
  | SortKey.subTotal => JsVal.num (calculateSubTotal it)
  | _ => getSortVal key it

/-- String branch of the sort comparator: lowercased lexicographic
comparison returning -1/1/0, the sign flipping when descending. -/
def strCmp (asc : Bool) (sa sb : String) : ℚ :=
  if jsStrLt sa sb then (if asc then -1 else 1)
  else if jsStrLt sb sa then (if asc then 1 else -1)
  else 0

/-- Embedding of the comparator inside `sortData`: null/undefined coerce
to the empty string; two numbers compare by difference; anything else
compares as lowercased strings. -/
def jsCompare (key : SortKey) (asc : Bool) (a b : Item) : ℚ :=
  match sortVal key a, sortVal key b with
  | JsVal.num x, JsVal.num y => if asc then x - y else y - x
  | va, vb => strCmp asc (jsToLower (jsValAsString va)) (jsToLower (jsValAsString vb))

/-- Stable insertion of an element in front of the first position whose
occupant does not strictly precede it. -/
def insertS {α : Type} (le : α → α → Bool) (x : α) : List α → List α
  | [] => [x]
  | y :: ys => if le x y then x :: y :: ys else y :: insertS le x ys

/-- Stable insertion sort, the model of the engine's stable
`Array.prototype.sort`. -/
def isort {α : Type} (le : α → α → Bool) : List α → List α
  | [] => []
  | x :: xs => insertS le x (isort le xs)

/-- Boolean form of "the comparator does not order `b` strictly before
`a`", the relation the stable sort works with. -/
def sortLe (key : SortKey) (asc : Bool) (a b : Item) : Bool :=
  decide (jsCompare key asc a b ≤ 0)

/-- Embedding of `sortData`: stable sort of the view by the comparator. -/
def sortData (key : SortKey) (asc : Bool) (l : List Item) : List Item :=
  isort (sortLe key asc) l

/-- Current sort state: column key and direction. -/
structure SortState where
  key : SortKey
  asc : Bool
deriving DecidableEq, Repr

/-- Embedding of the header-click handler (`js/index.js` lines 849-860):
a repeated click on the current column flips the direction, a click on a
different column selects it ascending. -/
def clickSort (k : SortKey) (s : SortState) : SortState :=
  if s.key = k then ⟨k, !s.asc⟩ else ⟨k, true⟩

/-- Ascending comparator exactly as the spec words it: numeric difference
when both values are numbers, otherwise lowercase lexicographic string
comparison with null coerced to the empty string first. -/
def specCompare (key : SortKey) (a b : Item) : ℚ :=
  match sortVal key a, sortVal key b with
  | JsVal.num x, JsVal.num y => x - y
  | va, vb =>
      let sa := jsToLower (jsValAsString va)
      let sb := jsToLower (jsValAsString vb)
      if jsStrLt sa sb then -1
      else if jsStrLt sb sa then 1
      else 0

/-- Base item with every optional field absent, used to build concrete
test rows. -/
def baseItem : Item :=
  ⟨ItemId.num 1, none, none, none, none, none, none, none, none⟩

/-- Two distinct rows in the same category (a sort tie on the category
column). -/
def wItemA : Item :=
  { baseItem with id := ItemId.num 1, category := some "x", item := some "a" }

/-- Second row of the category tie. -/
def wItemB : Item :=
  { baseItem with id := ItemId.num 2, category := some "x", item := some "b" }

/-- Row whose stored subtotal (5) disagrees with the computed
`unitCost × quantity` (100). -/
def itemStoredSub : Item :=
  { baseItem with subTotal := some 5, unitCost := some 100, quantity := some 1 }

/-- Row with no stored subtotal, so the subtotal is computed. -/
def itemComputedSub : Item :=
  { baseItem with unitCost := some 10 }

/-- Filter state with all three controls inactive. -/
def fsNone : FilterState :=
  ⟨"", "", false⟩

/-- Row whose stored subtotal (999) disagrees with the computed
`unitCost × quantity` (1). -/
def itemC1 : Item :=
  { baseItem with subTotal := some 999, unitCost := some 1, quantity := some 1 }

/-- Rows with distinct category values, giving a tie-free string sort. -/
def dItemA : Item :=
  { baseItem with id := ItemId.num 1, category := some "a" }

/-- Second row of the tie-free pair. -/
def dItemB : Item :=
  { baseItem with id := ItemId.num 2, category := some "b" }

/-- Inline-editable fields of a table row (the inputs wired up by
`enterEditMode`). -/
inductive EditField where
  | category
  | item
  | required
  | unitCost
  | quantity
deriving DecidableEq, Repr

/-- JS name of an editable field, as stored in `dataset.field`. -/
def fieldNameStr : EditField → String
  | EditField.category => "category"
  | EditField.item => "item"
  | EditField.required => "required"
  | EditField.unitCost => "unitCost"
  | EditField.quantity => "quantity"

/-- Embedding of `camelToSnake` (`js/index.js` lines 445-447). -/
def camelToSnake (s : String) : String :=
  ⟨s.data.flatMap (fun c => if c.isUpper then ['_', c.toLower] else [c])⟩

/-- Value read from an edit control on blur: a text input's raw string,
or a number input's value after the source's empty-check/`parseFloat`
step (the builtin `parseFloat` is modelled by its result, `none` for an
empty input). -/
inductive InputVal where
  | text (s : String)
  | numIn (v : Option ℚ)
deriving DecidableEq, Repr

/-- Conversion of the blurred input to the new field value, per
`handleFieldBlur` (`js/index.js` lines 365-373): trim, and numeric
fields map the empty string to null. -/
def parseInput : InputVal → JsVal
  | InputVal.text s => JsVal.str (jsTrim s)
  | InputVal.numIn none => JsVal.null
  | InputVal.numIn (some q) => JsVal.num q

/-- Whether an input shape matches its field's control type (text inputs
for the text fields, number inputs for cost and quantity). -/
def wellFormedInput : EditField → InputVal → Bool
  | EditField.unitCost, InputVal.numIn _ => true
  | EditField.quantity, InputVal.numIn _ => true
  | EditField.category, InputVal.text _ => true
  | EditField.item, InputVal.text _ => true
  | EditField.required, InputVal.text _ => true
  | _, _ => false

/-- Property read `item[field]` for an editable field. -/
def getField (it : Item) : EditField → JsVal
  | EditField.category => match it.category with | some s => JsVal.str s | none => JsVal.null
  | EditField.item => match it.item with | some s => JsVal.str s | none => JsVal.null
  | EditField.required => match it.required with | some s => JsVal.str s | none => JsVal.null
  | EditField.unitCost => match it.unitCost with | some q => JsVal.num q | none => JsVal.null
  | EditField.quantity => match it.quantity with | some q => JsVal.num q | none => JsVal.null

/-- Storage of a dynamic value into a string-typed field. -/
def asOptStr : JsVal → Option String
  | JsVal.str s => some s
  | JsVal.num q => some (ratToString q)
  | JsVal.null => none

/-- Storage of a dynamic value into a number-typed field. -/
def asOptNum : JsVal → Option ℚ
  | JsVal.num q => some q
  | _ => none

/-- Property write `item[field] = value` for an editable field. -/
def setField (it : Item) : EditField → JsVal → Item
  | EditField.category, v => { it with category := asOptStr v }
  | EditField.item, v => { it with item := asOptStr v }
  | EditField.required, v => { it with required := asOptStr v }
  | EditField.unitCost, v => { it with unitCost := asOptNum v }
  | EditField.quantity, v => { it with quantity := asOptNum v }

/-- The two numeric edit fields. -/
def isNumericField : EditField → Bool
  | EditField.unitCost => true
  | EditField.quantity => true
  | _ => false

/-- Input display of a field value, as used by the error-revert path of
`handleFieldBlur` (numeric null shows as the empty input, string null as
the empty string). -/
def displayOf (f : EditField) (v : JsVal) : InputVal :=
  if isNumericField f then
    match v with
    | JsVal.num q => InputVal.numIn (some q)
    | _ => InputVal.numIn none
  else
    match v with
    | JsVal.str s => InputVal.text s
    | _ => InputVal.text ""

/-- Network requests issued to the repository client. -/
inductive NetEff where
  | createReq (payload : Item)
  | updateReq (id : ItemId) (field : String) (value : JsVal)
  | deleteReq (id : ItemId)
deriving DecidableEq, Repr

/-- The source's `findIndex` on id followed by a single-field assignment
at the found index. -/
def updateFirstById (tgt : ItemId) (f : EditField) (v : JsVal) : List Item → List Item
  | [] => []
  | x :: xs => if x.id = tgt then setField x f v :: xs else x :: updateFirstById tgt f v xs

/-- The source's `findIndex` on id followed by replacement of the whole
record at the found index. -/
def replaceFirstById (tgt : ItemId) (repl : Item) : List Item → List Item
  | [] => []
  | x :: xs => if x.id = tgt then repl :: xs else x :: replaceFirstById tgt repl xs

/-- Outcome of a field blur: the row object, the canonical collection
(the row object in it is aliased, so local writes show up there), the
value displayed by the input afterwards, and the issued requests. -/
structure BlurResult where
  row : Item
  data : List Item
  display : InputVal
  effs : List NetEff
deriving DecidableEq, Repr

/-- Embedding of `handleFieldBlur` (`js/index.js` lines 365-440).  The
awaited results of `createItem` and `updateItemField` are passed in as
`createRes` and `updateRes` (`none` models the failure path). -/
def handleFieldBlur (it : Item) (f : EditField) (inp : InputVal) (data : List Item)
    (createRes : Option Item) (updateRes : Option Item) : BlurResult :=
  let newValue := parseInput inp
  let oldValue := getField it f
  if oldValue = newValue then ⟨it, data, inp, []⟩
  else if isNewId it.id then
    let it₁ := setField it f newValue
    let data₁ := updateFirstById it.id f newValue data
    if strTruthy it₁.category && strTruthy it₁.item then
      match createRes with
      | some created => ⟨created, replaceFirstById it.id created data₁, inp, [NetEff.createReq it₁]⟩
      | none => ⟨it₁, data₁, inp, [NetEff.createReq it₁]⟩
    else ⟨it₁, data₁, inp, []⟩
  else
    match updateRes with
    | some _ =>
        ⟨setField it f newValue, updateFirstById it.id f newValue data, inp,
          [NetEff.updateReq it.id (camelToSnake (fieldNameStr f)) newValue]⟩
    | none =>
        ⟨it, data, displayOf f oldValue,
          [NetEff.updateReq it.id (camelToSnake (fieldNameStr f)) newValue]⟩

/-- Whether a blur outcome issued a create request. -/
def issuesCreate (r : BlurResult) : Bool :=
  r.effs.any (fun e => match e with | NetEff.createReq _ => true | _ => false)

/-- Temporary id of a sentinel row minted at timestamp `ts`
(`new-item-temp-${Date.now()}`). -/
def tempId (ts : Nat) : ItemId :=
  ItemId.str ("new-item-temp-" ++ toString ts)

/-- The blank sentinel record created by `addNewItemRow`
(`js/index.js` lines 507-518). -/
def newSentinel (ts : Nat) : Item :=
  ⟨tempId ts, some "", some "", some "No", some "", none, none, none, some ""⟩

/-- Whether the canonical collection already holds a sentinel row. -/
def hasNewItem (data : List Item) : Bool :=
  data.any (fun it => isNewId it.id)

/-- Embedding of `addNewItemRow` (`js/index.js` lines 496-538): rejected
when a sentinel exists, otherwise the sentinel is unshifted onto the
canonical collection; no request is issued either way. -/
def addNewItemRow (ts : Nat) (data : List Item) : List Item × List NetEff :=
  if hasNewItem data then (data, []) else (newSentinel ts :: data, [])

/-- Outcome of the delete handler: the canonical collection and the
issued requests. -/
structure DeleteResult where
  data : List Item
  effs : List NetEff
deriving DecidableEq, Repr

/-- Embedding of `handleDelete` (`js/index.js` lines 543-567): a sentinel
id is removed locally with no request; otherwise the confirm dialog
gates a delete request, and the row is removed only on success. -/
def handleDelete (id : ItemId) (data : List Item) (confirmed : Bool) (delSuccess : Bool) :
    DeleteResult :=
  if isNewId id then ⟨data.filter (fun it => decide (it.id ≠ id)), []⟩
  else if !confirmed then ⟨data, []⟩
  else if delSuccess then ⟨data.filter (fun it => decide (it.id ≠ id)), [NetEff.deleteReq id]⟩
  else ⟨data, [NetEff.deleteReq id]⟩

/-- Number of sentinel rows in the canonical collection. -/
def sentinelCount (data : List Item) : Nat :=
  data.countP (fun it => isNewId it.id)

/-- Sentinel row after a failed create attempt: both required fields
already hold values. -/
def sentFl : Item :=
  ⟨ItemId.str "new-item-temp-1", some "Flowers", some "Bouquet", some "No", some "",
    none, none, none, some ""⟩

/-- The persisted record returned by the store for the sentinel. -/
def createdFl : Item :=
  ⟨ItemId.num 7, some "Flowers", some "Bouquet", some "No", some "", none, none, none, some ""⟩

/-- Sentinel row holding only a category, the state right before the
item-name blur of the spec's create-flow scenario. -/
def sentFl0 : Item :=
  ⟨ItemId.str "new-item-temp-1", some "Flowers", some "", some "No", some "",
    none, none, none, some ""⟩

/-- Blank sentinel row as freshly created. -/
def sentBlank : Item :=
  ⟨ItemId.str "new-item-temp-1", some "", some "", some "No", some "",
    none, none, none, some ""⟩

/-- A persisted row used to exercise the update path. -/
def persItem : Item :=
  ⟨ItemId.num 3, some "Venue", some "Hall", some "Yes", some "", some 1000, some 1,
    none, some ""⟩

/-- The builtin global-regex `String.prototype.replace` for a
single-character pattern, on the character list. -/
def jsReplaceAll (c : Char) (rep : List Char) : List Char → List Char
  | [] => []
  | x :: xs => (if x = c then rep else [x]) ++ jsReplaceAll c rep xs

/-- The five sequential replacements of `escapeHtml`, in source order:
ampersand, less-than, greater-than, double quote, single quote. -/
def escChain (l : List Char) : List Char :=
  jsReplaceAll (Char.ofNat 39) "&#039;".data
    (jsReplaceAll (Char.ofNat 34) "&quot;".data
      (jsReplaceAll '>' "&gt;".data
        (jsReplaceAll '<' "&lt;".data
          (jsReplaceAll '&' "&amp;".data l))))

/-- Embedding of `escapeHtml` (`js/item.js` lines 191-199): falsy input
gives the empty string, otherwise the five chained replacements. -/
def escapeHtml (v : Option String) : String :=
  match v with
  | none => ""
  | some s => if strIsEmpty s then "" else ⟨escChain s.data⟩

/-- Per-character entity encoding as the claim words it. -/
def escChar (c : Char) : List Char :=
  if c = '&' then "&amp;".data
  else if c = '<' then "&lt;".data
  else if c = '>' then "&gt;".data
  else if c = Char.ofNat 34 then "&quot;".data
  else if c = Char.ofNat 39 then "&#039;".data
  else [c]

/-- Characterwise entity encoding of a whole character list. -/
def escAll : List Char → List Char
  | [] => []
  | x :: xs => escChar x ++ escAll xs

/-- An empty JS string has an empty character list. -/
theorem data_eq_nil_of_strIsEmpty {s : String} (h : strIsEmpty s = true) : s.data = [] := by
  simpa [strIsEmpty] using h

/-- A nonempty search needle is never a substring of the empty string. -/
theorem jsIncludes_empty_left {t : String} (h : strIsEmpty t = false)
    (s : String) (hs : strIsEmpty s = true) : jsIncludes (jsToLower s) t = false := by
  have hdata : s.data = [] := data_eq_nil_of_strIsEmpty hs
  simp only [jsIncludes, jsToLower, hdata, List.map_nil, decide_eq_false_iff_not]
  intro hinf
  have ht : t.data = [] := List.eq_nil_of_infix_nil hinf
  rw [strIsEmpty, ht] at h
  exact absurd h (by decide)

/-- A nonempty pattern is never a prefix of the empty string. -/
theorem jsStartsWith_empty {r : String} (hr : strIsEmpty r = true) :
    jsStartsWith (jsToLower r) "y" = false := by
  have hdata : r.data = [] := data_eq_nil_of_strIsEmpty hr
  simp [jsStartsWith, jsToLower, hdata, List.isPrefixOf]

/-- The filter step returns a sublist of the canonical collection. -/
theorem applyFilters_sublist (fs : FilterState) (data : List Item) :
    (applyFilters fs data).Sublist data :=
  List.filter_sublist data

/-- Pointwise agreement of the source filter predicate with the
conjunction of the three spec predicates. -/
theorem filter_pred_eq (fs : FilterState) (it : Item) :
    (let searchTerm := jsToLower (jsTrim fs.searchTerm)
     let matchesSearch := strIsEmpty searchTerm ||
       (match it.item with
         | some s => !strIsEmpty s && jsIncludes (jsToLower s) searchTerm
         | none => false) ||
       (match it.category with
         | some s => !strIsEmpty s && jsIncludes (jsToLower s) searchTerm
         | none => false)
     let matchesCategory := strIsEmpty fs.category ||
       (match it.category with
         | some c => c == fs.category
         | none => false)
     let matchesRequired := !fs.requiredOnly ||
       (match it.required with
         | some r => !strIsEmpty r && jsStartsWith (jsToLower r) "y"
         | none => false)
     matchesSearch && matchesCategory && matchesRequired)
    = (specSearchMatch fs it && specCategoryMatch fs it && specRequiredMatch fs it) := by
  simp only [specSearchMatch, specCategoryMatch, specRequiredMatch]
  congr 1
  · congr 1
    · -- search predicate: the truthiness guards are redundant
      by_cases ht : strIsEmpty (jsToLower (jsTrim fs.searchTerm)) = true
      · simp [ht]
      · have htf : strIsEmpty (jsToLower (jsTrim fs.searchTerm)) = false := by
          simpa [Bool.not_eq_true] using ht
        simp only [htf, Bool.false_or]
        congr 1
        · cases hit : it.item with
          | none => rfl
          | some s =>
              by_cases hs : strIsEmpty s = true
              · simp [hs, jsIncludes_empty_left htf s hs]
              · simp [Bool.not_eq_true] at hs
                simp [hs]
        · cases hc : it.category with
          | none => rfl
          | some s =>
              by_cases hs : strIsEmpty s = true
              · simp [hs, jsIncludes_empty_left htf s hs]
              · simp [Bool.not_eq_true] at hs
                simp [hs]
    · -- category predicate
      cases hc : it.category with
      | none => simp
      | some c => simp
  · -- required predicate: the truthiness guard is redundant
    congr 1
    cases hr : it.required with
    | none => rfl
    | some r =>
        by_cases hs : strIsEmpty r = true
        · simp [hs, jsStartsWith_empty hs]
        · simp [Bool.not_eq_true] at hs
          simp [hs]

/-- C3. For every canonical collection and filter state, the filter step
returns exactly the canonical items satisfying the conjunction of the
search, category and required predicates, as a sublist of the canonical
collection (so relative canonical order is preserved). -/
theorem applyFilters_correct (fs : FilterState) (data : List Item) :
    applyFilters fs data
        = data.filter
            (fun it => specSearchMatch fs it && specCategoryMatch fs it && specRequiredMatch fs it)
      ∧ (applyFilters fs data).Sublist data
      ∧ ∀ it : Item,
          it ∈ applyFilters fs data ↔
            it ∈ data ∧ specSearchMatch fs it = true ∧ specCategoryMatch fs it = true
              ∧ specRequiredMatch fs it = true := by
  have heq : applyFilters fs data
      = data.filter
          (fun it => specSearchMatch fs it && specCategoryMatch fs it && specRequiredMatch fs it) := by
    unfold applyFilters
    exact List.filter_congr fun it _ => filter_pred_eq fs it
  refine ⟨heq, applyFilters_sublist fs data, ?_⟩
  · intro it
    rw [heq, List.mem_filter]
    simp [and_assoc]

/-- Inserting an element permutes consing it in front. -/
theorem insertS_perm {α : Type} (le : α → α → Bool) (x : α) (l : List α) :
    (insertS le x l).Perm (x :: l) := by
  induction l with
  | nil => simp [insertS]
  | cons y ys ih =>
      by_cases h : le x y = true
      · simp [insertS, h]
      · simp only [insertS, h, Bool.false_eq_true, if_false]
        exact (ih.cons y).trans (List.Perm.swap x y ys)

/-- Insertion sort permutes its input. -/
theorem isort_perm {α : Type} (le : α → α → Bool) (l : List α) :
    (isort le l).Perm l := by
  induction l with
  | nil => exact List.Perm.refl []
  | cons x xs ih => exact (insertS_perm le x (isort le xs)).trans (ih.cons x)

/-- Insertion splits the target list around the inserted element. -/
theorem insertS_decomp {α : Type} (le : α → α → Bool) (x : α) (l : List α) :
    ∃ p q, insertS le x l = p ++ x :: q ∧ l = p ++ q := by
  induction l with
  | nil => exact ⟨[], [], rfl, rfl⟩
  | cons y ys ih =>
      by_cases h : le x y = true
      · exact ⟨[], y :: ys, by simp [insertS, h], rfl⟩
      · obtain ⟨p, q, h1, h2⟩ := ih
        refine ⟨y :: p, q, ?_, by simp [h2]⟩
        simp [insertS, h, h1]

/-- Insertion preserves every sublist of the original list. -/
theorem insertS_sublist {α : Type} (le : α → α → Bool) (x : α) {s l : List α}
    (hs : s.Sublist l) : s.Sublist (insertS le x l) := by
  obtain ⟨p, q, h1, h2⟩ := insertS_decomp le x l
  rw [h1]
  subst h2
  exact hs.trans ((List.sublist_cons_self x q).append_left p)

/-- The inserted element lands before every list element it weakly
precedes. -/
theorem insertS_pair {α : Type} (le : α → α → Bool) (x b : α)
    (hxb : le x b = true) {l : List α} (hb : b ∈ l) :
    [x, b].Sublist (insertS le x l) := by
  induction l with
  | nil => cases hb
  | cons y ys ih =>
      by_cases h : le x y = true
      · simp only [insertS, h, if_true]
        exact List.cons_sublist_cons.mpr (List.singleton_sublist.mpr hb)
      · simp only [insertS, h, Bool.false_eq_true, if_false]
        rcases List.mem_cons.mp hb with rfl | hb2
        · exact absurd hxb h
        · exact (ih hb2).cons y

/-- Stability of the insertion sort: an ordered pair of elements that the
comparator treats as tied keeps its relative order. -/
theorem isort_stable_pair {α : Type} (le : α → α → Bool) {a b : α}
    (hab : le a b = true) : ∀ {l : List α}, [a, b].Sublist l →
    [a, b].Sublist (isort le l) := by
  intro l
  induction l with
  | nil => intro hsub; cases hsub
  | cons x xs ih =>
      intro hsub
      cases hsub with
      | cons _ h => exact insertS_sublist le x (ih h)
      | cons₂ _ h =>
          have hb : b ∈ isort le xs :=
            (isort_perm le xs).mem_iff.mpr (List.singleton_sublist.mp h)
          exact insertS_pair le a b hab hb

/-- Insertion preserves pairwise ordering, given totality and
transitivity restricted to the elements involved. -/
theorem insertS_pairwise {α : Type} (le : α → α → Bool) (x : α) {l : List α}
    (hpw : l.Pairwise (fun a b => le a b = true))
    (htot : ∀ y ∈ l, le x y = true ∨ le y x = true)
    (htr : ∀ y ∈ l, ∀ z ∈ l, le x y = true → le y z = true → le x z = true) :
    (insertS le x l).Pairwise (fun a b => le a b = true) := by
  induction l with
  | nil => simp [insertS]
  | cons y ys ih =>
      rcases List.pairwise_cons.mp hpw with ⟨hy, hys⟩
      by_cases h : le x y = true
      · simp only [insertS, h, if_true]
        refine List.pairwise_cons.mpr ⟨?_, hpw⟩
        intro z hz
        rcases List.mem_cons.mp hz with rfl | hz2
        · exact h
        · exact htr y (List.mem_cons_self y ys) z (List.mem_cons_of_mem y hz2) h (hy z hz2)
      · simp only [insertS, h, Bool.false_eq_true, if_false]
        refine List.pairwise_cons.mpr ⟨?_, ?_⟩
        · intro z hz
          have hz' : z ∈ x :: ys := (insertS_perm le x ys).mem_iff.mp hz
          rcases List.mem_cons.mp hz' with rfl | hz2
          · rcases htot y (List.mem_cons_self y ys) with hxy | hyx
            · exact absurd hxy h
            · exact hyx
          · exact hy z hz2
        · exact ih hys
            (fun y2 hy2 => htot y2 (List.mem_cons_of_mem y hy2))
            (fun y2 hy2 z hz => htr y2 (List.mem_cons_of_mem y hy2) z (List.mem_cons_of_mem y hz))

/-- Insertion sort produces a pairwise-ordered list, given totality and
transitivity restricted to the input's elements. -/
theorem isort_pairwise {α : Type} (le : α → α → Bool) {l : List α}
    (htot : ∀ a ∈ l, ∀ b ∈ l, le a b = true ∨ le b a = true)
    (htr : ∀ a ∈ l, ∀ b ∈ l, ∀ c ∈ l,
      le a b = true → le b c = true → le a c = true) :
    (isort le l).Pairwise (fun a b => le a b = true) := by
  induction l with
  | nil => simp [isort]
  | cons x xs ih =>
      have hmem : ∀ y ∈ isort le xs, y ∈ xs := fun y hy => (isort_perm le xs).mem_iff.mp hy
      refine insertS_pairwise le x ?_ ?_ ?_
      · exact ih
          (fun a ha b hb => htot a (List.mem_cons_of_mem x ha) b (List.mem_cons_of_mem x hb))
          (fun a ha b hb c hc => htr a (List.mem_cons_of_mem x ha) b (List.mem_cons_of_mem x hb)
            c (List.mem_cons_of_mem x hc))
      · intro y hy
        exact htot x (List.mem_cons_self x xs) y (List.mem_cons_of_mem x (hmem y hy))
      · intro y hy z hz hxy hyz
        exact htr x (List.mem_cons_self x xs) y (List.mem_cons_of_mem x (hmem y hy))
          z (List.mem_cons_of_mem x (hmem z hz)) hxy hyz

/-- Sorting an already pairwise-ordered list is the identity. -/
theorem isort_of_pairwise {α : Type} (le : α → α → Bool) {l : List α}
    (h : l.Pairwise (fun a b => le a b = true)) : isort le l = l := by
  induction l with
  | nil => rfl
  | cons x xs ih =>
      rcases List.pairwise_cons.mp h with ⟨hx, hxs⟩
      show insertS le x (isort le xs) = x :: xs
      rw [ih hxs]
      cases xs with
      | nil => rfl
      | cons y ys => simp [insertS, hx y (List.mem_cons_self y ys)]

/-- Two pairwise-ordered permutations of each other are equal, given
antisymmetry restricted to the elements involved. -/
theorem eq_of_perm_of_pairwise {α : Type} (le : α → α → Bool) :
    ∀ {l₁ l₂ : List α}, l₁.Perm l₂ →
    l₁.Pairwise (fun a b => le a b = true) →
    l₂.Pairwise (fun a b => le a b = true) →
    (∀ a ∈ l₁, ∀ b ∈ l₁, le a b = true → le b a = true → a = b) →
    l₁ = l₂ := by
  intro l₁
  induction l₁ with
  | nil =>
      intro l₂ hp _ _ _
      exact (hp.symm.eq_nil).symm
  | cons a t₁ ih =>
      intro l₂ hp h₁ h₂ hanti
      cases l₂ with
      | nil => exact absurd hp.eq_nil (by simp)
      | cons b t₂ =>
          have hab : a = b := by
            by_cases hab : a = b
            · exact hab
            · have hbmem : b ∈ a :: t₁ := hp.mem_iff.mpr (List.mem_cons_self b t₂)
              have hb₁ : b ∈ t₁ := by
                rcases List.mem_cons.mp hbmem with h | h
                · exact absurd h.symm hab
                · exact h
              have hamem : a ∈ b :: t₂ := hp.mem_iff.mp (List.mem_cons_self a t₁)
              have ha₂ : a ∈ t₂ := by
                rcases List.mem_cons.mp hamem with h | h
                · exact absurd h hab
                · exact h
              have hle1 : le a b = true := (List.pairwise_cons.mp h₁).1 b hb₁
              have hle2 : le b a = true := (List.pairwise_cons.mp h₂).1 a ha₂
              exact hanti a (List.mem_cons_self a t₁) b hbmem hle1 hle2
          subst hab
          have ht : t₁.Perm t₂ := hp.cons_inv
          have htl := ih ht (List.pairwise_cons.mp h₁).2 (List.pairwise_cons.mp h₂).2
            (fun x hx y hy => hanti x (List.mem_cons_of_mem a hx) y (List.mem_cons_of_mem a hy))
          rw [htl]

/-- Strict asymmetry of the character-list comparison. -/
theorem charListLt_asymm : ∀ {a b : List Char}, charListLt a b = true → charListLt b a = false := by
  intro a
  induction a with
  | nil =>
      intro b h
      cases b with
      | nil => simp [charListLt] at h
      | cons c cs => rfl
  | cons x xs ih =>
      intro b h
      cases b with
      | nil => simp [charListLt] at h
      | cons y ys =>
          by_cases hxy : x < y
          · have hyx : ¬ y < x := lt_asymm hxy
            simp [charListLt, hyx, hxy]
          · by_cases hyx : y < x
            · rw [charListLt, if_neg hxy, if_pos hyx] at h
              simp at h
            · rw [charListLt, if_neg hxy, if_neg hyx] at h
              rw [charListLt, if_neg hyx, if_neg hxy]
              exact ih h

/-- Asymmetry of the JS string comparison. -/
theorem jsStrLt_asymm {sa sb : String} (h : jsStrLt sa sb = true) : jsStrLt sb sa = false :=
  charListLt_asymm h

/-- The descending string comparator negates the ascending one. -/
theorem strCmp_false_eq (sa sb : String) : strCmp false sa sb = -(strCmp true sa sb) := by
  unfold strCmp
  by_cases h1 : jsStrLt sa sb = true
  · simp [h1]
  · by_cases h2 : jsStrLt sb sa = true
    · simp [h1, h2]
    · simp [h1, h2]

/-- Swapping the compared strings negates the string comparator. -/
theorem strCmp_swap (asc : Bool) (sa sb : String) : strCmp asc sb sa = -(strCmp asc sa sb) := by
  unfold strCmp
  by_cases h1 : jsStrLt sa sb = true
  · have h2 : jsStrLt sb sa = false := jsStrLt_asymm h1
    rw [h1, h2]
    simp only [Bool.false_eq_true, if_false, if_true]
    cases asc <;> norm_num
  · rw [Bool.not_eq_true] at h1
    by_cases h2 : jsStrLt sb sa = true
    · rw [h1, h2]
      simp only [Bool.false_eq_true, if_false, if_true]
      cases asc <;> norm_num
    · rw [Bool.not_eq_true] at h2
      rw [h1, h2]
      norm_num

/-- The descending comparator is the negation of the ascending one. -/
theorem jsCompare_false_eq (key : SortKey) (a b : Item) :
    jsCompare key false a b = -(jsCompare key true a b) := by
  unfold jsCompare
  cases sortVal key a <;> cases sortVal key b <;>
    first
      | exact strCmp_false_eq _ _
      | simp

/-- Swapping the compared items negates the comparator. -/
theorem jsCompare_swap (key : SortKey) (asc : Bool) (a b : Item) :
    jsCompare key asc b a = -(jsCompare key asc a b) := by
  unfold jsCompare
  cases sortVal key a <;> cases sortVal key b <;>
    first
      | exact strCmp_swap _ _ _
      | (cases asc <;> simp)

/-- The sort relation is total. -/
theorem sortLe_total (key : SortKey) (asc : Bool) (a b : Item) :
    sortLe key asc a b = true ∨ sortLe key asc b a = true := by
  unfold sortLe
  rcases le_total (jsCompare key asc a b) 0 with h | h
  · exact Or.inl (by simpa using h)
  · refine Or.inr ?_
    rw [jsCompare_swap]
    simpa using neg_nonpos_of_nonneg h

/-- The descending sort relation is the flip of the ascending one. -/
theorem sortLe_false_eq (key : SortKey) (a b : Item) :
    sortLe key false a b = sortLe key true b a := by
  unfold sortLe
  rw [jsCompare_false_eq, jsCompare_swap key true a b]

/-- The ascending comparator agrees with the comparator as the spec
words it. -/
theorem jsCompare_true_spec (key : SortKey) (a b : Item) :
    jsCompare key true a b = specCompare key a b := by
  unfold jsCompare specCompare strCmp
  cases sortVal key a <;> cases sortVal key b <;> simp

/-- C4. The sort step compares by the selected column with numeric
comparison when both values are numbers and otherwise lowercase
lexicographic string comparison with null coerced to the empty string
(the comparator equals the spec's ascending comparator, and descending
negates it); the result is a permutation of the input; and the sort is
stable: a pair the comparator ties keeps its relative order. -/
theorem sortData_correct :
    (∀ (key : SortKey) (a b : Item), jsCompare key true a b = specCompare key a b)
    ∧ (∀ (key : SortKey) (a b : Item), jsCompare key false a b = -(specCompare key a b))
    ∧ (∀ (key : SortKey) (asc : Bool) (l : List Item), (sortData key asc l).Perm l)
    ∧ (∀ (key : SortKey) (asc : Bool) (a b : Item) (l : List Item),
        jsCompare key asc a b = 0 → [a, b].Sublist l →
          [a, b].Sublist (sortData key asc l)) := by
  refine ⟨jsCompare_true_spec, ?_, ?_, ?_⟩
  · intro key a b
    rw [jsCompare_false_eq, jsCompare_true_spec]
  · intro key asc l
    exact isort_perm _ l
  · intro key asc a b l h hsub
    refine isort_stable_pair _ ?_ hsub
    unfold sortLe
    rw [h]
    decide

/-- Witness for C4: the stability conjunct applied to a concrete tie. -/
theorem sortData_correct_witness :
    [wItemA, wItemB].Sublist (sortData SortKey.category true [wItemA, wItemB]) :=
  sortData_correct.2.2.2 SortKey.category true wItemA wItemB [wItemA, wItemB]
    (by decide) (List.Sublist.refl _)

/-- C2 (amended). The sort key for the subtotal column is
`calculateSubTotal`: the dynamically computed `unitCost × (quantity ?? 1)`
only when the stored `subTotal` is not a number; a numeric stored
`subTotal` is used verbatim as the sort key. -/
theorem sortKey_subTotal_amended : ∀ it : Item,
    sortVal SortKey.subTotal it = JsVal.num (calculateSubTotal it)
    ∧ (it.subTotal = none → calculateSubTotal it = claimItemCost it)
    ∧ (∀ s : ℚ, it.subTotal = some s → calculateSubTotal it = s) := by
  intro it
  refine ⟨rfl, ?_, ?_⟩
  · intro h
    simp [calculateSubTotal, claimItemCost, h]
  · intro s h
    simp [calculateSubTotal, h]

/-- Counterexample for C2 as stated: on a row with a numeric stored
subtotal the sort key is the stored value, not the computed
`unitCost × (quantity or 1)`. -/
theorem sortKey_subTotal_counterexample :
    sortVal SortKey.subTotal itemStoredSub ≠ JsVal.num (claimItemCost itemStoredSub) := by
  have h : claimItemCost itemStoredSub = 100 := by
    norm_num [claimItemCost, itemStoredSub, baseItem]
  rw [h]
  decide

/-- Witness for C2 (amended): both branches of the amended claim at
concrete rows. -/
theorem sortKey_subTotal_witness :
    calculateSubTotal itemStoredSub = 5
      ∧ calculateSubTotal itemComputedSub = claimItemCost itemComputedSub :=
  ⟨(sortKey_subTotal_amended itemStoredSub).2.2 5 rfl,
   (sortKey_subTotal_amended itemComputedSub).2.1 rfl⟩

/-- Folding addition of a projection equals the initial value plus the
sum of the mapped list. -/
theorem foldl_add_eq_sum (f : Item → ℚ) (l : List Item) (a : ℚ) :
    l.foldl (fun sum it => sum + f it) a = a + (l.map f).sum := by
  induction l generalizing a with
  | nil => simp
  | cons x xs ih => simp [ih, add_assoc]

/-- The source's per-item subtotal equals the amended claim's cost. -/
theorem calculateSubTotal_eq_amended (it : Item) :
    calculateSubTotal it = amendedItemCost it := by
  cases h : it.subTotal <;> simp [calculateSubTotal, amendedItemCost, claimItemCost, h]

/-- C1 (amended). The summary total cost equals the sum over exactly the
items in the derived view (sentinel included) of the per-item cost that
takes a numeric stored `subTotal` verbatim and otherwise computes
`unitCost × (quantity ?? 1)`. -/
theorem summaryTotalCost_amended : ∀ (fs : FilterState) (data : List Item),
    summaryTotalCost fs data = ((applyFilters fs data).map amendedItemCost).sum := by
  intro fs data
  unfold summaryTotalCost
  rw [foldl_add_eq_sum calculateSubTotal (applyFilters fs data) 0, zero_add]
  have h : calculateSubTotal = amendedItemCost := funext calculateSubTotal_eq_amended
  rw [h]

/-- Counterexample for C1 as stated: with a numeric stored subtotal in
view, the summary total is the stored value, not the claimed
`unitCost × (quantity ?? 1)` sum. -/
theorem summaryTotalCost_counterexample :
    summaryTotalCost fsNone [itemC1] ≠ claimTotalCost fsNone [itemC1] := by
  have hview : applyFilters fsNone [itemC1] = [itemC1] := by decide
  have h1 : summaryTotalCost fsNone [itemC1] = 999 := by
    unfold summaryTotalCost
    rw [hview]
    simp [calculateSubTotal, itemC1, baseItem]
  have h2 : claimTotalCost fsNone [itemC1] = 1 := by
    unfold claimTotalCost
    rw [hview]
    simp [claimItemCost, itemC1, baseItem]
  rw [h1, h2]
  norm_num

/-- Boolean form of the sort relation restated through `decide`. -/
theorem sortLe_iff (key : SortKey) (asc : Bool) (a b : Item) :
    sortLe key asc a b = true ↔ jsCompare key asc a b ≤ 0 := by
  simp [sortLe]

/-- C5 (amended). A header click on the current column flips the
direction and a click on a different column selects it ascending; and
when the comparator on the listed items is transitive and ties only
occur between equal items, sorting descending after sorting ascending
yields exactly the reverse of the ascending order.  (With ties the
stable sort keeps tied items in their relative order instead of
reversing them, and a comparator that mixes numeric and string values
need not be transitive.) -/
theorem clickSort_toggle_amended :
    (∀ (s : SortState) (k : SortKey),
        (s.key = k → clickSort k s = ⟨k, !s.asc⟩) ∧ (s.key ≠ k → clickSort k s = ⟨k, true⟩))
    ∧ ∀ (k : SortKey) (l : List Item),
        (∀ a ∈ l, ∀ b ∈ l, a ≠ b → jsCompare k true a b ≠ 0) →
        (∀ a ∈ l, ∀ b ∈ l, ∀ c ∈ l,
          jsCompare k true a b ≤ 0 → jsCompare k true b c ≤ 0 → jsCompare k true a c ≤ 0) →
        sortData k false (sortData k true l) = (sortData k true l).reverse := by
  constructor
  · intro s k
    constructor
    · intro h
      simp [clickSort, h]
    · intro h
      simp [clickSort, h]
  · intro k l hties htrans
    have hperm1 : (sortData k true l).Perm l := isort_perm _ l
    have hmem1 : ∀ x ∈ sortData k true l, x ∈ l := fun x hx => hperm1.mem_iff.mp hx
    have hleD : ∀ a b : Item, sortLe k false a b = sortLe k true b a := fun a b =>
      sortLe_false_eq k a b
    -- the ascending result is pairwise ordered
    have hpw1 : (sortData k true l).Pairwise (fun a b => sortLe k true a b = true) := by
      refine isort_pairwise _ (fun a _ b _ => sortLe_total k true a b) ?_
      intro a ha b hb c hc hab hbc
      rw [sortLe_iff] at hab hbc ⊢
      exact htrans a ha b hb c hc hab hbc
    refine eq_of_perm_of_pairwise (sortLe k false)
      ((isort_perm _ (sortData k true l)).trans (List.reverse_perm (sortData k true l)).symm)
      ?_ ?_ ?_
    · -- the descending sort of the ascending result is pairwise ordered
      refine isort_pairwise _ (fun a _ b _ => sortLe_total k false a b) ?_
      intro a ha b hb c hc hab hbc
      rw [hleD, sortLe_iff] at hab hbc ⊢
      exact htrans c (hmem1 c hc) b (hmem1 b hb) a (hmem1 a ha) hbc hab
    · -- the reverse of the ascending result is pairwise ordered descending
      refine List.pairwise_reverse.mpr ?_
      refine hpw1.imp ?_
      intro a b h
      rw [hleD b a]
      exact h
    · -- ties force equality on the listed items
      intro a ha b hb hab hba
      have ha' : a ∈ l := hmem1 a ((isort_perm (sortLe k false) (sortData k true l)).mem_iff.mp ha)
      have hb' : b ∈ l := hmem1 b ((isort_perm (sortLe k false) (sortData k true l)).mem_iff.mp hb)
      rw [hleD, sortLe_iff] at hab hba
      have hswap : jsCompare k true a b = -(jsCompare k true b a) :=
        jsCompare_swap k true b a
      have hz : jsCompare k true b a = 0 := by
        have : 0 ≤ jsCompare k true b a := by
          rw [hswap] at hba
          linarith
        linarith
      by_contra hne
      exact hties b hb' a ha' (fun h => hne h.symm) hz

/-- Counterexample for C5 as stated: two rows tied on the category
column; the second (descending) activation keeps the stable tie order,
which is not the reverse of the ascending order. -/
theorem clickSort_counterexample :
    sortData SortKey.category false (sortData SortKey.category true [wItemA, wItemB])
      ≠ (sortData SortKey.category true [wItemA, wItemB]).reverse := by
  decide

/-- Witness for C5 (amended): the toggle transition on a different
column, and the reverse law on a concrete tie-free list. -/
theorem clickSort_toggle_witness :
    clickSort SortKey.category ⟨SortKey.id, true⟩ = ⟨SortKey.category, true⟩
    ∧ sortData SortKey.category false (sortData SortKey.category true [dItemB, dItemA])
        = (sortData SortKey.category true [dItemB, dItemA]).reverse :=
  ⟨(clickSort_toggle_amended.1 ⟨SortKey.id, true⟩ SortKey.category).2 (by decide),
   clickSort_toggle_amended.2 SortKey.category [dItemB, dItemA] (by decide) (by decide)⟩

/-- A field write never touches the id. -/
theorem setField_id (it : Item) (f : EditField) (v : JsVal) : (setField it f v).id = it.id := by
  cases f <;> rfl

/-- Characterization of the indexed single-field write when the target
sits after an id-free block. -/
theorem updateFirstById_append (tgt : ItemId) (f : EditField) (v : JsVal)
    (l₁ : List Item) (x : Item) (l₂ : List Item)
    (h₁ : ∀ y ∈ l₁, y.id ≠ tgt) (hx : x.id = tgt) :
    updateFirstById tgt f v (l₁ ++ x :: l₂) = l₁ ++ setField x f v :: l₂ := by
  induction l₁ with
  | nil => simp [updateFirstById, hx]
  | cons y ys ih =>
      have hy : y.id ≠ tgt := h₁ y (List.mem_cons_self y ys)
      simp only [List.cons_append, updateFirstById, hy, if_false]
      exact congrArg (y :: ·) (ih (fun z hz => h₁ z (List.mem_cons_of_mem y hz)))

/-- Characterization of the indexed record replacement when the target
sits after an id-free block. -/
theorem replaceFirstById_append (tgt : ItemId) (repl : Item)
    (l₁ : List Item) (x : Item) (l₂ : List Item)
    (h₁ : ∀ y ∈ l₁, y.id ≠ tgt) (hx : x.id = tgt) :
    replaceFirstById tgt repl (l₁ ++ x :: l₂) = l₁ ++ repl :: l₂ := by
  induction l₁ with
  | nil => simp [replaceFirstById, hx]
  | cons y ys ih =>
      have hy : y.id ≠ tgt := h₁ y (List.mem_cons_self y ys)
      simp only [List.cons_append, replaceFirstById, hy, if_false]
      exact congrArg (y :: ·) (ih (fun z hz => h₁ z (List.mem_cons_of_mem y hz)))

/-- Reading back a just-written field returns the written value, for an
input matching the field's control type. -/
theorem getField_setField (it : Item) (f : EditField) (inp : InputVal)
    (hwf : wellFormedInput f inp = true) :
    getField (setField it f (parseInput inp)) f = parseInput inp := by
  cases f <;> cases inp <;>
    first
      | rfl
      | (rename_i v; cases v <;> rfl)
      | simp [wellFormedInput] at hwf

/-- C6 (amended). For a sentinel row: a blur whose value equals the
stored one is a no-op with no request; a value-changing blur issues a
create request exactly when both category and item are non-empty after
the write, and otherwise only updates the row locally; and on create
success the sentinel is replaced in place by the persisted record,
preserving its row position. -/
theorem handleFieldBlur_new_amended :
    ∀ (it : Item) (f : EditField) (inp : InputVal) (data : List Item)
      (cr ur : Option Item),
      isNewId it.id = true →
      (getField it f = parseInput inp →
        handleFieldBlur it f inp data cr ur = ⟨it, data, inp, []⟩)
      ∧ (getField it f ≠ parseInput inp →
          issuesCreate (handleFieldBlur it f inp data cr ur)
            = (strTruthy (setField it f (parseInput inp)).category
                && strTruthy (setField it f (parseInput inp)).item))
      ∧ (getField it f ≠ parseInput inp →
          (strTruthy (setField it f (parseInput inp)).category
              && strTruthy (setField it f (parseInput inp)).item) = false →
          handleFieldBlur it f inp data cr ur
            = ⟨setField it f (parseInput inp),
               updateFirstById it.id f (parseInput inp) data, inp, []⟩)
      ∧ (∀ created l₁ l₂, getField it f ≠ parseInput inp →
          (strTruthy (setField it f (parseInput inp)).category
              && strTruthy (setField it f (parseInput inp)).item) = true →
          cr = some created →
          data = l₁ ++ it :: l₂ → (∀ x ∈ l₁, x.id ≠ it.id) →
          (handleFieldBlur it f inp data cr ur).data = l₁ ++ created :: l₂
            ∧ (handleFieldBlur it f inp data cr ur).effs
                = [NetEff.createReq (setField it f (parseInput inp))]) := by
  intro it f inp data cr ur hnew
  refine ⟨?_, ?_, ?_, ?_⟩
  · intro h
    simp [handleFieldBlur, h]
  · intro h
    by_cases hc : (strTruthy (setField it f (parseInput inp)).category
        && strTruthy (setField it f (parseInput inp)).item) = true
    · cases cr with
      | some created => simp [handleFieldBlur, h, hnew, hc, issuesCreate]
      | none => simp [handleFieldBlur, h, hnew, hc, issuesCreate]
    · rw [Bool.not_eq_true] at hc
      simp [handleFieldBlur, h, hnew, hc, issuesCreate]
  · intro h hc
    simp [handleFieldBlur, h, hnew, hc]
  · intro created l₁ l₂ h hc hcr hdata hfree
    subst hcr
    subst hdata
    have hdata₁ : updateFirstById it.id f (parseInput inp) (l₁ ++ it :: l₂)
        = l₁ ++ setField it f (parseInput inp) :: l₂ :=
      updateFirstById_append it.id f (parseInput inp) l₁ it l₂ hfree rfl
    have hdata₂ : replaceFirstById it.id created (l₁ ++ setField it f (parseInput inp) :: l₂)
        = l₁ ++ created :: l₂ :=
      replaceFirstById_append it.id created l₁ (setField it f (parseInput inp)) l₂ hfree
        (setField_id it f (parseInput inp))
    constructor
    · simp [handleFieldBlur, h, hnew, hc, hdata₁, hdata₂]
    · simp [handleFieldBlur, h, hnew, hc]

/-- Counterexample for C6 as stated: a blur that leaves the value
unchanged issues no create request even though category and item are
both non-empty afterwards. -/
theorem handleFieldBlur_new_counterexample :
    issuesCreate (handleFieldBlur sentFl EditField.category (InputVal.text "Flowers") [sentFl]
        (some createdFl) none) = false
    ∧ strTruthy sentFl.category = true ∧ strTruthy sentFl.item = true := by
  decide

/-- Witness for C6 (amended): the spec's create-flow scenario.  Setting
the category while the item is still empty issues no request; the later
item blur issues the create request with both fields and replaces the
sentinel in place. -/
theorem handleFieldBlur_new_witness :
    handleFieldBlur sentBlank EditField.category (InputVal.text "Flowers") [sentBlank]
        none none
      = ⟨setField sentBlank EditField.category (parseInput (InputVal.text "Flowers")),
         updateFirstById sentBlank.id EditField.category
           (parseInput (InputVal.text "Flowers")) [sentBlank], InputVal.text "Flowers", []⟩
    ∧ (handleFieldBlur sentFl0 EditField.item (InputVal.text "Bouquet") [sentFl0]
        (some createdFl) none).data = [] ++ createdFl :: []
    ∧ (handleFieldBlur sentFl0 EditField.item (InputVal.text "Bouquet") [sentFl0]
        (some createdFl) none).effs
      = [NetEff.createReq (setField sentFl0 EditField.item (parseInput (InputVal.text "Bouquet")))] :=
  ⟨(handleFieldBlur_new_amended sentBlank EditField.category (InputVal.text "Flowers")
      [sentBlank] none none (by decide)).2.2.1 (by decide) (by decide),
   ((handleFieldBlur_new_amended sentFl0 EditField.item (InputVal.text "Bouquet")
      [sentFl0] (some createdFl) none (by decide)).2.2.2 createdFl [] []
      (by decide) (by decide) rfl rfl (by simp)).1,
   ((handleFieldBlur_new_amended sentFl0 EditField.item (InputVal.text "Bouquet")
      [sentFl0] (some createdFl) none (by decide)).2.2.2 createdFl [] []
      (by decide) (by decide) rfl rfl (by simp)).2⟩

/-- C7. For a persisted row, a value-changing field blur issues a
single-field update request; on failure the canonical collection is left
unchanged and the input is restored to the last-known value; only on
success are the row and the canonical record written with the new value
(which then reads back from the written field). -/
theorem handleFieldBlur_existing :
    ∀ (it : Item) (f : EditField) (inp : InputVal) (data : List Item)
      (cr ur : Option Item),
      isNewId it.id = false →
      getField it f ≠ parseInput inp →
      (ur = none →
        handleFieldBlur it f inp data cr ur
          = ⟨it, data, displayOf f (getField it f),
             [NetEff.updateReq it.id (camelToSnake (fieldNameStr f)) (parseInput inp)]⟩)
      ∧ (∀ u, ur = some u →
          handleFieldBlur it f inp data cr ur
            = ⟨setField it f (parseInput inp), updateFirstById it.id f (parseInput inp) data,
               inp, [NetEff.updateReq it.id (camelToSnake (fieldNameStr f)) (parseInput inp)]⟩
          ∧ (wellFormedInput f inp = true →
              getField (setField it f (parseInput inp)) f = parseInput inp)) := by
  intro it f inp data cr ur hold h
  constructor
  · intro hur
    subst hur
    simp [handleFieldBlur, h, hold]
  · intro u hur
    subst hur
    exact ⟨by simp [handleFieldBlur, h, hold], getField_setField it f inp⟩

/-- Witness for C7: a failed unit-cost update on a concrete persisted
row reverts the display and leaves the collection unchanged, and a
successful one writes the field. -/
theorem handleFieldBlur_existing_witness :
    handleFieldBlur persItem EditField.unitCost (InputVal.numIn (some 1500)) [persItem]
        none none
      = ⟨persItem, [persItem], displayOf EditField.unitCost (getField persItem EditField.unitCost),
         [NetEff.updateReq persItem.id (camelToSnake (fieldNameStr EditField.unitCost))
            (parseInput (InputVal.numIn (some 1500)))]⟩
    ∧ handleFieldBlur persItem EditField.unitCost (InputVal.numIn (some 1500)) [persItem]
        none (some persItem)
      = ⟨setField persItem EditField.unitCost (parseInput (InputVal.numIn (some 1500))),
         updateFirstById persItem.id EditField.unitCost
           (parseInput (InputVal.numIn (some 1500))) [persItem],
         InputVal.numIn (some 1500),
         [NetEff.updateReq persItem.id (camelToSnake (fieldNameStr EditField.unitCost))
            (parseInput (InputVal.numIn (some 1500)))]⟩ :=
  ⟨(handleFieldBlur_existing persItem EditField.unitCost (InputVal.numIn (some 1500))
      [persItem] none none (by decide) (by decide)).1 rfl,
   ((handleFieldBlur_existing persItem EditField.unitCost (InputVal.numIn (some 1500))
      [persItem] none (some persItem) (by decide) (by decide)).2 persItem rfl).1⟩

/-- The minted temporary id is always recognised as a sentinel id. -/
theorem isNewId_tempId (ts : Nat) : isNewId (tempId ts) = true := by
  show jsStartsWith ("new-item-temp-" ++ toString ts) "new-item-temp-" = true
  unfold jsStartsWith
  rw [List.isPrefixOf_iff_prefix]
  show "new-item-temp-".data <+: "new-item-temp-".data ++ (toString ts).data
  exact List.prefix_append _ _

/-- C8. Creating a sentinel row and deleting it before any field save
issues no request at either step and restores the canonical collection
exactly, whatever the confirm dialog or delete outcome would have been. -/
theorem addDelete_noop :
    ∀ (ts : Nat) (data : List Item) (c s : Bool),
      (∀ it ∈ data, isNewId it.id = false) →
      (addNewItemRow ts data).2 = []
      ∧ (handleDelete (tempId ts) (addNewItemRow ts data).1 c s).effs = []
      ∧ (handleDelete (tempId ts) (addNewItemRow ts data).1 c s).data = data := by
  intro ts data c s h
  have hno : hasNewItem data = false :=
    List.any_eq_false.mpr (fun x hx => by simp [h x hx])
  have hadd : addNewItemRow ts data = (newSentinel ts :: data, []) := by
    simp [addNewItemRow, hno]
  have hsent : decide ((newSentinel ts).id ≠ tempId ts) = false := by
    simp [newSentinel]
  have hkeep : ∀ it ∈ data, decide (it.id ≠ tempId ts) = true := by
    intro it hit
    simp only [decide_eq_true_iff]
    intro hid
    have : isNewId it.id = true := by rw [hid]; exact isNewId_tempId ts
    rw [h it hit] at this
    exact absurd this (by decide)
  have hdel : handleDelete (tempId ts) (newSentinel ts :: data) c s
      = ⟨(newSentinel ts :: data).filter (fun it => decide (it.id ≠ tempId ts)), []⟩ := by
    simp [handleDelete, isNewId_tempId ts]
  refine ⟨by rw [hadd], ?_, ?_⟩
  · rw [hadd]
    rw [hdel]
  · rw [hadd]
    rw [hdel]
    show (newSentinel ts :: data).filter (fun it => decide (it.id ≠ tempId ts)) = data
    rw [List.filter_cons_of_neg (by simp [hsent])]
    exact List.filter_eq_self.mpr hkeep

/-- Witness for C8: the whole round trip on a one-row collection. -/
theorem addDelete_noop_witness :
    (addNewItemRow 1 [persItem]).2 = []
    ∧ (handleDelete (tempId 1) (addNewItemRow 1 [persItem]).1 false false).effs = []
    ∧ (handleDelete (tempId 1) (addNewItemRow 1 [persItem]).1 false false).data = [persItem] :=
  addDelete_noop 1 [persItem] false false (by decide)

/-- The single-field write keeps the sentinel count unchanged. -/
theorem sentinelCount_updateFirstById (tgt : ItemId) (f : EditField) (v : JsVal)
    (data : List Item) : sentinelCount (updateFirstById tgt f v data) = sentinelCount data := by
  induction data with
  | nil => rfl
  | cons x xs ih =>
      by_cases h : x.id = tgt
      · simp [updateFirstById, h, sentinelCount, List.countP_cons, setField_id]
      · simp only [updateFirstById, h, if_false]
        simp only [sentinelCount, List.countP_cons] at ih ⊢
        rw [ih]

/-- Replacing a record by a non-sentinel one never increases the
sentinel count. -/
theorem sentinelCount_replaceFirstById (tgt : ItemId) (repl : Item)
    (hrepl : isNewId repl.id = false) (data : List Item) :
    sentinelCount (replaceFirstById tgt repl data) ≤ sentinelCount data := by
  induction data with
  | nil => exact Nat.le_refl _
  | cons x xs ih =>
      by_cases h : x.id = tgt
      · simp only [replaceFirstById, h, if_true, sentinelCount, List.countP_cons, hrepl]
        simp only [Bool.false_eq_true, if_false, Nat.add_zero]
        exact Nat.le_add_right _ _
      · simp only [replaceFirstById, h, if_false, sentinelCount, List.countP_cons]
        exact Nat.add_le_add_right ih _

/-- The canonical collection after a field blur is the input collection,
the input with one single-field write, or that with the sentinel further
replaced by the created record. -/
theorem handleFieldBlur_data_cases (it : Item) (f : EditField) (inp : InputVal)
    (data : List Item) (cr ur : Option Item) :
    (handleFieldBlur it f inp data cr ur).data = data
    ∨ (handleFieldBlur it f inp data cr ur).data = updateFirstById it.id f (parseInput inp) data
    ∨ (∃ created, cr = some created ∧
        (handleFieldBlur it f inp data cr ur).data
          = replaceFirstById it.id created (updateFirstById it.id f (parseInput inp) data)) := by
  by_cases h1 : getField it f = parseInput inp
  · left
    simp [handleFieldBlur, h1]
  · by_cases h2 : isNewId it.id = true
    · by_cases h3 : (strTruthy (setField it f (parseInput inp)).category
          && strTruthy (setField it f (parseInput inp)).item) = true
      · cases cr with
        | some created =>
            right; right
            exact ⟨created, rfl, by simp [handleFieldBlur, h1, h2, h3]⟩
        | none =>
            right; left
            simp [handleFieldBlur, h1, h2, h3]
      · rw [Bool.not_eq_true] at h3
        right; left
        simp [handleFieldBlur, h1, h2, h3]
    · rw [Bool.not_eq_true] at h2
      cases ur with
      | some u =>
          right; left
          simp [handleFieldBlur, h1, h2]
      | none =>
          left
          simp [handleFieldBlur, h1, h2]

/-- C9. Every operation preserves "at most one sentinel row" in the
canonical collection: adding a row (which is rejected outright, with no
change, when a sentinel exists), any field blur whose created record is
a persisted one, deletion, and the derived-view steps (filtering never
adds rows and sorting only permutes them; neither writes the canonical
collection). -/
theorem sentinel_invariant :
    (∀ (ts : Nat) (data : List Item),
        sentinelCount data ≤ 1 → sentinelCount (addNewItemRow ts data).1 ≤ 1)
    ∧ (∀ (ts : Nat) (data : List Item),
        hasNewItem data = true → addNewItemRow ts data = (data, []))
    ∧ (∀ (it : Item) (f : EditField) (inp : InputVal) (data : List Item) (cr ur : Option Item),
        sentinelCount data ≤ 1 → (∀ c, cr = some c → isNewId c.id = false) →
        sentinelCount (handleFieldBlur it f inp data cr ur).data ≤ 1)
    ∧ (∀ (id : ItemId) (data : List Item) (c s : Bool),
        sentinelCount data ≤ 1 → sentinelCount (handleDelete id data c s).data ≤ 1)
    ∧ (∀ (fs : FilterState) (data : List Item),
        sentinelCount (applyFilters fs data) ≤ sentinelCount data)
    ∧ (∀ (key : SortKey) (asc : Bool) (data : List Item),
        sentinelCount (sortData key asc data) = sentinelCount data) := by
  refine ⟨?_, ?_, ?_, ?_, ?_, ?_⟩
  · intro ts data hinv
    by_cases h : hasNewItem data = true
    · simpa [addNewItemRow, h] using hinv
    · rw [Bool.not_eq_true] at h
      have hzero : sentinelCount data = 0 :=
        List.countP_eq_zero.mpr (by simpa [hasNewItem, List.any_eq_false] using h)
      have hsent : isNewId (newSentinel ts).id = true := isNewId_tempId ts
      have hcount : sentinelCount (newSentinel ts :: data) = sentinelCount data + 1 := by
        simp [sentinelCount, List.countP_cons, hsent]
      have hres : (addNewItemRow ts data).1 = newSentinel ts :: data := by
        simp [addNewItemRow, h]
      rw [hres, hcount, hzero]
  · intro ts data h
    simp [addNewItemRow, h]
  · intro it f inp data cr ur hinv hcr
    rcases handleFieldBlur_data_cases it f inp data cr ur with h | h | ⟨created, hc, h⟩
    · rwa [h]
    · rw [h, sentinelCount_updateFirstById]
      exact hinv
    · rw [h]
      refine le_trans (sentinelCount_replaceFirstById it.id created (hcr created hc) _) ?_
      rw [sentinelCount_updateFirstById]
      exact hinv
  · intro id data c s hinv
    unfold handleDelete
    split_ifs <;>
      first
        | exact hinv
        | exact le_trans ((List.filter_sublist data).countP_le _) hinv
  · intro fs data
    exact (applyFilters_sublist fs data).countP_le _
  · intro key asc data
    exact ((isort_perm _ data).countP_eq _)

/-- Witness for C9: the invariant applied across concrete operations. -/
theorem sentinel_invariant_witness :
    sentinelCount (addNewItemRow 1 [persItem]).1 ≤ 1
    ∧ addNewItemRow 2 [sentFl] = ([sentFl], [])
    ∧ sentinelCount (handleFieldBlur persItem EditField.category (InputVal.text "X")
        [persItem] none none).data ≤ 1
    ∧ sentinelCount (handleDelete (ItemId.num 3) [persItem] true true).data ≤ 1 :=
  ⟨sentinel_invariant.1 1 [persItem] (by decide),
   sentinel_invariant.2.1 2 [sentFl] (by decide),
   sentinel_invariant.2.2.1 persItem EditField.category (InputVal.text "X") [persItem]
     none none (by decide) (fun c h => nomatch h),
   sentinel_invariant.2.2.2.1 (ItemId.num 3) [persItem] true true (by decide)⟩

/-- The single-character replacement distributes over append. -/
theorem jsReplaceAll_append (c : Char) (rep : List Char) (l₁ l₂ : List Char) :
    jsReplaceAll c rep (l₁ ++ l₂) = jsReplaceAll c rep l₁ ++ jsReplaceAll c rep l₂ := by
  induction l₁ with
  | nil => rfl
  | cons x xs ih => simp [jsReplaceAll, ih]

/-- The replacement chain distributes over append. -/
theorem escChain_append (l₁ l₂ : List Char) :
    escChain (l₁ ++ l₂) = escChain l₁ ++ escChain l₂ := by
  simp [escChain, jsReplaceAll_append]

/-- On a single character the chain is exactly the entity encoding:
the later replacements never touch the characters introduced by an
earlier entity. -/
theorem escChain_singleton (x : Char) : escChain [x] = escChar x := by
  by_cases h1 : x = '&'
  · subst h1; decide
  by_cases h2 : x = '<'
  · subst h2; decide
  by_cases h3 : x = '>'
  · subst h3; decide
  by_cases h4 : x = Char.ofNat 34
  · subst h4; decide
  by_cases h5 : x = Char.ofNat 39
  · subst h5; decide
  simp [escChain, jsReplaceAll, escChar, h1, h2, h3, h4, h5]

/-- The sequential replacement chain equals the characterwise entity
encoding. -/
theorem escChain_eq_escAll (l : List Char) : escChain l = escAll l := by
  induction l with
  | nil => rfl
  | cons x xs ih =>
      have hsplit : escChain (x :: xs) = escChain [x] ++ escChain xs := by
        simpa using escChain_append [x] xs
      rw [hsplit, escChain_singleton, ih]
      rfl

/-- No entity encoding contains an angle bracket or a quote. -/
theorem escChar_no_bad (x : Char) :
    ∀ c ∈ escChar x, c ≠ '<' ∧ c ≠ '>' ∧ c ≠ Char.ofNat 34 ∧ c ≠ Char.ofNat 39 := by
  by_cases h1 : x = '&'
  · subst h1; decide
  by_cases h2 : x = '<'
  · subst h2; decide
  by_cases h3 : x = '>'
  · subst h3; decide
  by_cases h4 : x = Char.ofNat 34
  · subst h4; decide
  by_cases h5 : x = Char.ofNat 39
  · subst h5; decide
  intro c hc
  simp [escChar, h1, h2, h3, h4, h5] at hc
  subst hc
  exact ⟨h2, h3, h4, h5⟩

/-- The characterwise encoding of a list contains no angle bracket or
quote. -/
theorem escAll_no_bad : ∀ (l : List Char), ∀ c ∈ escAll l,
    c ≠ '<' ∧ c ≠ '>' ∧ c ≠ Char.ofNat 34 ∧ c ≠ Char.ofNat 39 := by
  intro l
  induction l with
  | nil => intro c hc; simp [escAll] at hc
  | cons x xs ih =>
      intro c hc
      simp only [escAll, List.mem_append] at hc
      rcases hc with hc | hc
      · exact escChar_no_bad x c hc
      · exact ih c hc

/-- C10. `escapeHtml` encodes every character of a string input by its
entity (in particular every ampersand becomes `&amp;`), returns the
empty string on every falsy input, and its output never contains a
less-than, greater-than, double-quote or single-quote character. -/
theorem escapeHtml_correct :
    (∀ s : String, (escapeHtml (some s)).data = escAll s.data)
    ∧ escapeHtml none = ""
    ∧ escapeHtml (some "") = ""
    ∧ escChar '&' = "&amp;".data
    ∧ ∀ (v : Option String) (c : Char), c ∈ (escapeHtml v).data →
        c ≠ '<' ∧ c ≠ '>' ∧ c ≠ Char.ofNat 34 ∧ c ≠ Char.ofNat 39 := by
  have hdata : ∀ s : String, (escapeHtml (some s)).data = escAll s.data := by
    intro s
    unfold escapeHtml
    by_cases h : strIsEmpty s = true
    · have : s.data = [] := data_eq_nil_of_strIsEmpty h
      simp [h, this, escAll]
    · rw [Bool.not_eq_true] at h
      simp only [h, Bool.false_eq_true, if_false]
      exact escChain_eq_escAll s.data
  refine ⟨hdata, rfl, rfl, by decide, ?_⟩
  intro v c hc
  cases v with
  | none => simp [escapeHtml] at hc
  | some s =>
      rw [hdata s] at hc
      exact escAll_no_bad s.data c hc

/-- Witness for C10: the membership conjunct applied to a concrete
escaped string. -/
theorem escapeHtml_correct_witness :
    ('a' : Char) ≠ '<' ∧ ('a' : Char) ≠ '>'
      ∧ ('a' : Char) ≠ Char.ofNat 34 ∧ ('a' : Char) ≠ Char.ofNat 39 :=
  escapeHtml_correct.2.2.2.2 (some "<a") 'a' (by decide)
